import Mathlib

/-!
# fuse_rust_wrapper.c

A shallow embedding of `src/wrapper/fuse_rust_wrapper.c`:

* `call_filler_function`, the trampoline that calls a directory-fill callback;
* `test_argc_argv`, the diagnostic routine that prints its argument vector.

C code that runs against a mutable world is embedded in state-passing style: a
computation takes the state and yields either a fault or a returned value paired
with the state it leaves behind.
-/

namespace FuseRustWrapper

/-! ## Data model -/

/-- Modelled from the spec: `struct stat` comes from the system headers, which are not
part of the sources; the spec describes it as the attributes of an entry (kind, size,
timestamps). The trampoline only passes a pointer to it along. -/
structure stat where
  st_mode : Nat
  st_size : Int
  st_mtime : Int
  deriving DecidableEq, Repr

/-- Largest value of the C type `int` (32 bits, two's complement). -/
def INT_MAX : Int := 2147483647

/-- Smallest value of the C type `int`. -/
def INT_MIN : Int := -2147483648

/-- Modelled from the spec: `fuse_fill_dir_t` is declared in `fuse.h`, which is not part
of the sources; the spec gives the signature (buffer, name, optional metadata, offset)
to integer verdict. A callback is a C function: run on a state `σ` it either faults with
some `ε` or returns its `int` verdict together with the state it leaves. The arguments
are the `void *` handle (an address), the C string behind `name`, the `struct stat`
behind `stbuf` (`none` for a null pointer) and the `off_t` offset. -/
abbrev fuse_fill_dir_t (σ ε : Type) : Type :=
  Nat → String → Option stat → Int → σ → Except ε (Int × σ)

/-- The trampoline of `fuse_rust_wrapper.c`, lines 4 to 7:
`return filler(buf, name, stbuf, off);`. -/
def call_filler_function {σ ε : Type} (filler : fuse_fill_dir_t σ ε) (buf : Nat)
    (name : String) (stbuf : Option stat) (off : Int) : σ → Except ε (Int × σ) :=
  fun s =>
    match filler buf name stbuf off s with
    | .error e => .error e
    | .ok (verdict, s') => .ok (verdict, s')

/-! ## Callbacks used to observe the trampoline -/

/-- The arguments of one invocation of a callback, as the callback received them. -/
structure Call where
  buf : Nat
  name : String
  stbuf : Option stat
  off : Int
  deriving DecidableEq, Repr

/-- A stub callback that always returns the verdict `v` and touches nothing. -/
def const_filler {σ ε : Type} (v : Int) : fuse_fill_dir_t σ ε :=
  fun _ _ _ _ s => .ok (v, s)

/-- A recording stub callback: it stores the arguments it is invoked with in its state
(the last invocation seen, if any) and returns the verdict `v`. -/
def recording_stub {ε : Type} (v : Int) : fuse_fill_dir_t (Option Call) ε :=
  fun buf name stbuf off _ => .ok (v, some ⟨buf, name, stbuf, off⟩)

/-- The callback `f` with a call log: every invocation appends its arguments to the log
and then behaves as `f`; the log is kept in the returned state, and in the failure when
`f` fails. -/
def logged {σ ε : Type} (f : fuse_fill_dir_t σ ε) :
    fuse_fill_dir_t (σ × List Call) (ε × List Call) :=
  fun buf name stbuf off w =>
    match f buf name stbuf off w.1 with
    | .error e => .error (e, w.2 ++ [⟨buf, name, stbuf, off⟩])
    | .ok (v, s') => .ok (v, (s', w.2 ++ [⟨buf, name, stbuf, off⟩]))

/-- The state a computation leaves behind, when it returns. -/
def state_after {σ ε : Type} : Except ε (Int × σ) → Option σ
  | .error _ => none
  | .ok (_, s) => some s

/-- Memory of a running program, in two parts: `visible` is the state the callback reads
and writes (the listing behind the buffer handle among it); `hidden` is everything else,
which is where a function that kept a value or a callback from one call to the next
would have to keep it. The type `τ` of that part is left open: it may have room for
values, for callbacks, or for both. -/
structure Memory (τ σ : Type) where
  hidden : τ
  visible : σ

/-- The trampoline of `fuse_rust_wrapper.c`, lines 4 to 7, as a function of the whole
memory. The file declares no object outside its two functions and the body is the one
statement `return filler(buf, name, stbuf, off);`, so the only access to memory is the
callback's, to the visible part. -/
def call_filler_function_mem {τ σ ε : Type} (filler : fuse_fill_dir_t σ ε) (buf : Nat)
    (name : String) (stbuf : Option stat) (off : Int) :
    Memory τ σ → Except ε (Int × Memory τ σ) :=
  fun m =>
    match filler buf name stbuf off m.visible with
    | .error e => .error e
    | .ok (verdict, s') => .ok (verdict, { hidden := m.hidden, visible := s' })

/-- One invocation of the trampoline: the callback handed to it and the four arguments. -/
structure Invocation (σ ε : Type) where
  filler : fuse_fill_dir_t σ ε
  args : Call

/-- A sequence of invocations of the trampoline, one after the other on the same memory;
it stops at the first failure and otherwise yields the verdicts and the memory. -/
def run_invocations {τ σ ε : Type} :
    List (Invocation σ ε) → Memory τ σ → Except ε (List Int × Memory τ σ)
  | [], m => .ok ([], m)
  | c :: rest, m =>
    match call_filler_function_mem c.filler c.args.buf c.args.name c.args.stbuf
        c.args.off m with
    | .error e => .error e
    | .ok (v, m') =>
      match run_invocations rest m' with
      | .error e => .error e
      | .ok (vs, m'') => .ok (v :: vs, m'')

/-- The invocation `c` of the trampoline made after the invocations of `history` have
run from the memory `m`. -/
def invoke_after {τ σ ε : Type} (history : List (Invocation σ ε)) (c : Invocation σ ε)
    (m : Memory τ σ) : Except ε (Int × Memory τ σ) :=
  match run_invocations history m with
  | .error e => .error e
  | .ok (_, m') =>
    call_filler_function_mem c.filler c.args.buf c.args.name c.args.stbuf c.args.off m'

/-- The verdict and effect of an invocation: the failure, or the verdict with the state
left in front of the callback. -/
def observed {τ σ ε : Type} : Except ε (Int × Memory τ σ) → Except ε (Int × σ)
  | .error e => .error e
  | .ok (v, m) => .ok (v, m.visible)

/-- The callback that forwards to `g` through `n` nested layers of
`call_filler_function`. -/
def nested {σ ε : Type} : Nat → fuse_fill_dir_t σ ε → fuse_fill_dir_t σ ε
  | 0, g => g
  | n + 1, g => fun buf name stbuf off =>
    call_filler_function (nested n g) buf name stbuf off

/-- A listing buffer that holds at most `cap` names: the fill callback used in the
examples. It appends the name and returns 0, or returns 1 when the buffer is full, and
fails on a null handle. -/
def sample_filler (cap : Nat) : fuse_fill_dir_t (List String) String :=
  fun buf name _ _ listing =>
    if buf = 0 then .error "null buffer"
    else if listing.length < cap then .ok (0, listing ++ [name])
    else .ok (1, listing)

/-! ## The diagnostic routine -/

/-- What can go wrong while `test_argc_argv` runs: a read of `argv` outside the array,
an overflow of the `int` counter, or a run that was given too little fuel to finish. -/
inductive Fault where
  | out_of_bounds (index : Int)
  | signed_overflow
  | out_of_fuel
  deriving DecidableEq, Repr

/-- Machine state of `test_argc_argv`: the bytes written to standard output and the local
`i`, together with a record of the run (the indices of `argv` read so far, every value
`i` has held, and the number of loop bodies executed). -/
structure Frame where
  stdout : String
  i : Int
  reads : List Int
  counter : List Int
  iterations : Nat
  deriving DecidableEq, Repr

/-- The conversion `%d` of `printf`: the decimal digits, with a leading minus sign for a
negative number. -/
def fmt_d (n : Int) : String :=
  toString n

/-- The read `argv[i]`: the C string at index `i`, or nothing outside the array. The
array `argv` is the list of its elements, each the characters of a C string before its
terminator. -/
def argv_at (argv : List String) (i : Int) : Option String :=
  if i < 0 then none else argv[i.toNat]?

/-- The loop `for(i=0; i<argc; ++i) { printf("%s\n", argv[i]); }` from the test of its
condition onward, lines 12 to 14. One unit of fuel pays for one test of `i<argc`. -/
def for_loop (argc : Int) (argv : List String) : Nat → Frame → Except Fault Frame
  | 0, _ => .error .out_of_fuel
  | fuel + 1, m =>
    if m.i < argc then
      match argv_at argv m.i with
      | none => .error (.out_of_bounds m.i)
      | some arg =>
        if INT_MAX < m.i + 1 then .error .signed_overflow
        else
          for_loop argc argv fuel
            { stdout := m.stdout ++ arg ++ "\n"
              i := m.i + 1
              reads := m.reads ++ [m.i]
              counter := m.counter ++ [m.i + 1]
              iterations := m.iterations + 1 }
    else .ok m

/-- The routine `test_argc_argv` of `fuse_rust_wrapper.c`, lines 9 to 15, run with the
given fuel on the standard output written so far: the count line, then the loop. -/
def test_argc_argv (fuel : Nat) (argc : Int) (argv : List String) (out : String) :
    Except Fault Frame :=
  for_loop argc argv fuel
    { stdout := out ++ fmt_d argc ++ " arguments\n"
      i := 0
      reads := []
      counter := [0]
      iterations := 0 }

/-- The text of the given strings, each followed by a newline. -/
def lines : List String → String
  | [] => ""
  | s :: rest => s ++ "\n" ++ lines rest

/-- The character of a decimal digit: `0` has code 48 and the others follow it. -/
def digit_char (d : Nat) : Char :=
  Char.ofNat (48 + d)

/-- The decimal numeral of a natural number: its digits in base ten, the most significant
first, and the single digit `0` for zero. -/
def decimal (n : Nat) : String :=
  if n = 0 then "0" else String.mk ((Nat.digits 10 n).reverse.map digit_char)

/-- An integer is a value of the C type `int`. -/
def is_int (n : Int) : Prop :=
  INT_MIN ≤ n ∧ n ≤ INT_MAX

instance (n : Int) : Decidable (is_int n) :=
  inferInstanceAs (Decidable (INT_MIN ≤ n ∧ n ≤ INT_MAX))

/-! ## The loop of the diagnostic routine -/

theorem for_loop_exit (argc : Int) (argv : List String) (fuel : Nat) (m : Frame)
    (h : argc ≤ m.i) : for_loop argc argv (fuel + 1) m = .ok m := by
  have hn : ¬ m.i < argc := not_lt.mpr h
  simp [for_loop, hn]

theorem argv_at_natCast (argv : List String) (n : Nat) (h : n < argv.length) :
    argv_at argv (n : Int) = some argv[n] := by
  have h0 : ¬ ((n : Int) < 0) := not_lt.mpr (Int.ofNat_nonneg n)
  simp [argv_at, h0, List.getElem?_eq_getElem h]

theorem for_loop_run (argc : Int) (argv : List String) (hlen : argc ≤ argv.length)
    (hmax : argc ≤ INT_MAX) :
    ∀ (k fuel : Nat) (m : Frame) (n : Nat), m.i = n → (n : Int) + k = argc → k < fuel →
      for_loop argc argv fuel m = .ok
        { stdout := m.stdout ++ lines ((argv.drop n).take k)
          i := argc
          reads := m.reads ++ (List.range' n k).map Int.ofNat
          counter := m.counter ++ (List.range' (n + 1) k).map Int.ofNat
          iterations := m.iterations + k } := by
  intro k
  induction k with
  | zero =>
    intro fuel m n hi hk hfuel
    obtain ⟨fuel', rfl⟩ : ∃ f, fuel = f + 1 := ⟨fuel - 1, by omega⟩
    have harg : argc = m.i := by rw [hi]; simpa using hk.symm
    rw [for_loop_exit argc argv fuel' m (le_of_eq harg)]
    cases m
    simp_all [lines]
  | succ k ih =>
    intro fuel m n hi hk hfuel
    obtain ⟨fuel', rfl⟩ : ∃ f, fuel = f + 1 := ⟨fuel - 1, by omega⟩
    have hlt : m.i < argc := by rw [hi]; push_cast at hk; omega
    have hn : n < argv.length := by push_cast at hk; omega
    have hov : ¬ INT_MAX < m.i + 1 := by rw [hi]; push_cast at hk; omega
    have hstep := ih fuel'
      { stdout := m.stdout ++ argv[n] ++ "\n"
        i := m.i + 1
        reads := m.reads ++ [m.i]
        counter := m.counter ++ [m.i + 1]
        iterations := m.iterations + 1 }
      (n + 1) (by simp [hi]) (by push_cast at hk ⊢; omega) (by omega)
    rw [for_loop]
    simp only [hlt, if_true, hov, if_false]
    rw [hi, argv_at_natCast argv n hn]
    simp only
    rw [hi] at hstep
    rw [hstep]
    rw [List.drop_eq_getElem_cons hn, List.take_succ_cons, lines, List.range'_succ,
      List.range'_succ]
    simp only [String.append_assoc, List.map_cons, List.append_assoc, List.singleton_append,
      Int.ofNat_eq_coe, Nat.cast_add, Nat.cast_one, Nat.add_assoc, Nat.add_comm 1 k]

/-- The whole run of `test_argc_argv` when `argc` is an `int` no larger than the length
of `argv` and the fuel pays for every test of the loop condition. -/
theorem test_argc_argv_run (argc : Int) (argv : List String) (out : String) (fuel : Nat)
    (hmax : argc ≤ INT_MAX) (hlen : argc ≤ argv.length) (hfuel : argc.toNat < fuel) :
    test_argc_argv fuel argc argv out = .ok
      { stdout := out ++ fmt_d argc ++ " arguments\n" ++ lines (argv.take argc.toNat)
        i := max argc 0
        reads := (List.range' 0 argc.toNat).map Int.ofNat
        counter := 0 :: (List.range' 1 argc.toNat).map Int.ofNat
        iterations := argc.toNat } := by
  unfold test_argc_argv
  rcases le_or_lt argc 0 with hneg | hpos
  · obtain ⟨fuel', rfl⟩ : ∃ f, fuel = f + 1 := ⟨fuel - 1, by omega⟩
    rw [for_loop_exit argc argv fuel' _ hneg]
    have h0 : argc.toNat = 0 := Int.toNat_eq_zero.mpr hneg
    simp [h0, lines, max_eq_right hneg]
  · have hk : ((0 : Nat) : Int) + (argc.toNat : Nat) = argc := by
      rw [Int.toNat_of_nonneg hpos.le]; simp
    rw [for_loop_run argc argv hlen hmax argc.toNat fuel _ 0 rfl hk hfuel]
    simp [max_eq_left hpos.le]

/-! ## The conversion `%d` -/

theorem digitChar_eq_digit_char (d : Nat) (h : d < 10) : Nat.digitChar d = digit_char d := by
  interval_cases d <;> rfl

theorem toDigitsCore_eq_digits : ∀ (fuel n : Nat) (ds : List Char), 0 < n → n < fuel →
    Nat.toDigitsCore 10 fuel n ds = (Nat.digits 10 n).reverse.map digit_char ++ ds := by
  intro fuel
  induction fuel with
  | zero => intro n ds _ h; omega
  | succ fuel ih =>
    intro n ds hn hf
    have hmod : n % 10 < 10 := Nat.mod_lt n (by decide)
    rw [Nat.toDigitsCore, Nat.digits_def' (by decide) hn]
    by_cases h0 : n / 10 = 0
    · simp [h0, digitChar_eq_digit_char _ hmod]
    · have hq : 0 < n / 10 := Nat.pos_of_ne_zero h0
      have hlt : n / 10 < fuel := by omega
      simp only [h0, if_false]
      rw [ih (n / 10) _ hq hlt]
      simp [digitChar_eq_digit_char _ hmod]

theorem repr_eq_decimal (n : Nat) : Nat.repr n = decimal n := by
  unfold decimal
  by_cases h : n = 0
  · subst h; rfl
  · rw [if_neg h, Nat.repr, Nat.toDigits,
      toDigitsCore_eq_digits (n + 1) n [] (Nat.pos_of_ne_zero h) (by omega)]
    simp [List.asString]

/-- The conversion `%d` of a count that is not negative writes its decimal numeral. -/
theorem fmt_d_natCast (n : Nat) : fmt_d (n : Int) = decimal n := by
  rw [← repr_eq_decimal]
  rfl

/-! ## The trampoline -/

/-- The trampoline yields the outcome of the callback on the same arguments and state. -/
theorem call_filler_function_eq {σ ε : Type} (filler : fuse_fill_dir_t σ ε) (buf : Nat)
    (name : String) (stbuf : Option stat) (off : Int) (s : σ) :
    call_filler_function filler buf name stbuf off s = filler buf name stbuf off s := by
  unfold call_filler_function
  cases h : filler buf name stbuf off s with
  | error e => rfl
  | ok r => rfl

/-- C1. Identity forwarding of the verdict: whenever the callback returns the verdict `v`
the trampoline returns `v` (and the outcomes agree altogether), and for every integer `v`,
among them 0, 1, -1 and the two extremes of `int`, the trampoline run on the stub that
always returns `v` returns `v`. -/
theorem C1_identity_forwarding {σ ε : Type} (f : fuse_fill_dir_t σ ε) (buf : Nat)
    (name : String) (stbuf : Option stat) (off : Int) (s : σ) :
    call_filler_function f buf name stbuf off s = f buf name stbuf off s ∧
    (∀ v : Int,
      call_filler_function (const_filler v : fuse_fill_dir_t σ ε) buf name stbuf off s
        = .ok (v, s)) ∧
    call_filler_function (const_filler 0 : fuse_fill_dir_t σ ε) buf name stbuf off s
      = .ok (0, s) ∧
    call_filler_function (const_filler 1 : fuse_fill_dir_t σ ε) buf name stbuf off s
      = .ok (1, s) ∧
    call_filler_function (const_filler (-1) : fuse_fill_dir_t σ ε) buf name stbuf off s
      = .ok (-1, s) ∧
    call_filler_function (const_filler INT_MIN : fuse_fill_dir_t σ ε) buf name stbuf off s
      = .ok (-2147483648, s) ∧
    call_filler_function (const_filler INT_MAX : fuse_fill_dir_t σ ε) buf name stbuf off s
      = .ok (2147483647, s) := by
  exact ⟨call_filler_function_eq f buf name stbuf off s, fun _ => rfl, rfl, rfl, rfl, rfl, rfl⟩

/-- C2. Argument fidelity: the recording stub passed to the trampoline is invoked with
exactly `(buf, name, stbuf, off)`: afterwards it has recorded that buffer handle, that
name, that metadata (an absent one recorded as absent) and that offset, for every signed
offset; so `(".", null, 0)` and `("entry", null, -1)` are recorded as given. -/
theorem C2_argument_fidelity {ε : Type} (v : Int) (buf : Nat) (name : String)
    (stbuf : Option stat) (off : Int) (seen : Option Call) :
    call_filler_function (recording_stub v : fuse_fill_dir_t (Option Call) ε)
        buf name stbuf off seen
      = .ok (v, some { buf := buf, name := name, stbuf := stbuf, off := off }) ∧
    call_filler_function (recording_stub v : fuse_fill_dir_t (Option Call) ε)
        buf name none off seen
      = .ok (v, some { buf := buf, name := name, stbuf := none, off := off }) ∧
    call_filler_function (recording_stub v : fuse_fill_dir_t (Option Call) ε)
        buf "." none 0 seen
      = .ok (v, some { buf := buf, name := ".", stbuf := none, off := 0 }) ∧
    call_filler_function (recording_stub v : fuse_fill_dir_t (Option Call) ε)
        buf "entry" none (-1) seen
      = .ok (v, some { buf := buf, name := "entry", stbuf := none, off := -1 }) := by
  exact ⟨rfl, rfl, rfl, rfl⟩

/-- C3. Single invocation: one call of the trampoline invokes the callback exactly once.
With a call log on the callback, the log after the call is the log before plus the one
entry of this call, whatever the callback does: whether it returns a zero verdict, a
non-zero verdict, or fails. -/
theorem C3_single_invocation {σ ε : Type} (f : fuse_fill_dir_t σ ε) (buf : Nat)
    (name : String) (stbuf : Option stat) (off : Int) (s : σ) (log : List Call) :
    call_filler_function (logged f) buf name stbuf off (s, log) =
      match f buf name stbuf off s with
      | .error e => .error (e, log ++ [{ buf := buf, name := name, stbuf := stbuf, off := off }])
      | .ok (v, s') =>
        .ok (v, (s', log ++ [{ buf := buf, name := name, stbuf := stbuf, off := off }])) := by
  rw [call_filler_function_eq]
  rfl

/-- C4. No side effects of its own: the state after the trampoline is the state after
the callback called directly with the same arguments; in particular, when the callback
leaves the state unchanged, so does the trampoline. -/
theorem C4_no_own_side_effects {σ ε : Type} (f : fuse_fill_dir_t σ ε) (buf : Nat)
    (name : String) (stbuf : Option stat) (off : Int) (s : σ) :
    state_after (call_filler_function f buf name stbuf off s)
      = state_after (f buf name stbuf off s) ∧
    (state_after (f buf name stbuf off s) = some s →
      state_after (call_filler_function f buf name stbuf off s) = some s) := by
  rw [call_filler_function_eq]
  exact ⟨rfl, id⟩

/-- Witness of C4: a full listing buffer, which the callback leaves as it is. -/
theorem C4_no_own_side_effects_witness :
    state_after (sample_filler 1 7 "b" none 0 ["a"]) = some ["a"] ∧
    state_after (call_filler_function (sample_filler 1) 7 "b" none 0 ["a"]) = some ["a"] :=
  ⟨rfl, (C4_no_own_side_effects (sample_filler 1) 7 "b" none 0 ["a"]).2 rfl⟩

/-- C5. No validation and no errors of its own: for every name (the empty one included),
absent or present metadata and every offset, the trampoline fails exactly when the
callback fails on the same arguments, and then with the same failure; and whenever the
callback returns a verdict the trampoline returns that verdict. -/
theorem C5_no_own_errors {σ ε : Type} (f : fuse_fill_dir_t σ ε) (buf : Nat)
    (name : String) (stbuf : Option stat) (off : Int) (s : σ) :
    (∀ e : ε, call_filler_function f buf name stbuf off s = .error e ↔
      f buf name stbuf off s = .error e) ∧
    (∀ e : ε, call_filler_function f buf "" stbuf off s = .error e ↔
      f buf "" stbuf off s = .error e) ∧
    (∀ r : Int × σ, f buf name stbuf off s = .ok r →
      call_filler_function f buf name stbuf off s = .ok r) ∧
    (∀ r : Int × σ, f buf "" stbuf off s = .ok r →
      call_filler_function f buf "" stbuf off s = .ok r) := by
  refine ⟨fun e => ?_, fun e => ?_, fun r h => ?_, fun r h => ?_⟩
  · rw [call_filler_function_eq]
  · rw [call_filler_function_eq]
  · rw [call_filler_function_eq, h]
  · rw [call_filler_function_eq, h]

/-- The two embeddings of the trampoline agree: seen from the callback's side, the
trampoline on the whole memory is the trampoline on the visible part. -/
theorem call_filler_function_mem_observed {τ σ ε : Type} (filler : fuse_fill_dir_t σ ε)
    (buf : Nat) (name : String) (stbuf : Option stat) (off : Int) (m : Memory τ σ) :
    observed (call_filler_function_mem filler buf name stbuf off m)
      = call_filler_function filler buf name stbuf off m.visible := by
  unfold call_filler_function_mem call_filler_function
  cases hf : filler buf name stbuf off m.visible with
  | error e => rfl
  | ok r => rfl

/-- A run of invocations leaves the hidden part of the memory as it found it. -/
theorem run_invocations_hidden {τ σ ε : Type} (history : List (Invocation σ ε)) :
    ∀ (m n : Memory τ σ) (vs : List Int),
      run_invocations history m = .ok (vs, n) → n.hidden = m.hidden := by
  induction history with
  | nil =>
    intro m n vs h
    simp only [run_invocations, Except.ok.injEq, Prod.mk.injEq] at h
    rw [h.2]
  | cons c rest ih =>
    intro m n vs h
    simp only [run_invocations, call_filler_function_mem] at h
    cases hf : c.filler c.args.buf c.args.name c.args.stbuf c.args.off m.visible with
    | error e => simp [hf] at h
    | ok r =>
      obtain ⟨v, s'⟩ := r
      simp only [hf] at h
      cases hr : run_invocations rest ({ hidden := m.hidden, visible := s' } : Memory τ σ) with
      | error e => simp [hr] at h
      | ok q =>
        obtain ⟨ws, m''⟩ := q
        simp only [hr, Except.ok.injEq, Prod.mk.injEq] at h
        rw [← h.2]
        exact ih { hidden := m.hidden, visible := s' } m'' ws hr

/-- C6. Statelessness: take two runs of earlier invocations, of any callbacks, from any
memories, that leave the same state in front of the callback, whatever they leave in the
rest of the memory. The same invocation made after either has the same verdict and the
same effect, namely what the callback yields on that state; and the trampoline leaves
the rest of the memory as it was before the first invocation, so it has kept nothing,
the callback included, for a later call. -/
theorem C6_stateless {τ σ ε : Type} (history₁ history₂ : List (Invocation σ ε))
    (m₁ m₂ n₁ n₂ : Memory τ σ) (vs₁ vs₂ : List Int) (c : Invocation σ ε)
    (h₁ : run_invocations history₁ m₁ = .ok (vs₁, n₁))
    (h₂ : run_invocations history₂ m₂ = .ok (vs₂, n₂))
    (hs : n₁.visible = n₂.visible) :
    observed (invoke_after history₁ c m₁) = observed (invoke_after history₂ c m₂) ∧
    observed (invoke_after history₁ c m₁)
      = c.filler c.args.buf c.args.name c.args.stbuf c.args.off n₁.visible ∧
    (∀ (v : Int) (n : Memory τ σ),
      invoke_after history₁ c m₁ = .ok (v, n) → n.hidden = m₁.hidden) := by
  have hcall : ∀ n : Memory τ σ,
      observed (call_filler_function_mem c.filler c.args.buf c.args.name c.args.stbuf
        c.args.off n) = c.filler c.args.buf c.args.name c.args.stbuf c.args.off n.visible := by
    intro n
    rw [call_filler_function_mem_observed, call_filler_function_eq]
  refine ⟨?_, ?_, ?_⟩
  · simp only [invoke_after, h₁, h₂, hcall, hs]
  · simp only [invoke_after, h₁, hcall]
  · intro v n h
    simp only [invoke_after, h₁, call_filler_function_mem] at h
    cases hf : c.filler c.args.buf c.args.name c.args.stbuf c.args.off n₁.visible with
    | error e => simp [hf] at h
    | ok r =>
      simp only [hf, Except.ok.injEq, Prod.mk.injEq] at h
      rw [← h.2]
      exact run_invocations_hidden history₁ m₁ n₁ vs₁ h₁

/-- Witness of C6: the entry "b" offered to a buffer that holds "a", once after an
earlier invocation put "a" there, in a memory whose rest holds another callback (one that
takes no entry) and the number 5, and once with no earlier invocation, in a memory whose
rest holds no callback and the number 9. -/
theorem C6_stateless_witness :
    observed (invoke_after [⟨sample_filler 2, ⟨7, "a", none, 0⟩⟩]
        ⟨sample_filler 2, ⟨7, "b", none, -1⟩⟩
        ({ hidden := (some (sample_filler 0), 5), visible := [] } :
          Memory (Option (fuse_fill_dir_t (List String) String) × Nat) (List String)))
      = observed (invoke_after []
        ⟨sample_filler 2, ⟨7, "b", none, -1⟩⟩
        ({ hidden := (none, 9), visible := ["a"] } :
          Memory (Option (fuse_fill_dir_t (List String) String) × Nat) (List String))) ∧
    observed (invoke_after [⟨sample_filler 2, ⟨7, "a", none, 0⟩⟩]
        ⟨sample_filler 2, ⟨7, "b", none, -1⟩⟩
        ({ hidden := (some (sample_filler 0), 5), visible := [] } :
          Memory (Option (fuse_fill_dir_t (List String) String) × Nat) (List String)))
      = .ok (0, ["a", "b"]) ∧
    (∀ (v : Int)
        (n : Memory (Option (fuse_fill_dir_t (List String) String) × Nat) (List String)),
      invoke_after [⟨sample_filler 2, ⟨7, "a", none, 0⟩⟩]
        ⟨sample_filler 2, ⟨7, "b", none, -1⟩⟩
        { hidden := (some (sample_filler 0), 5), visible := [] } = .ok (v, n) →
      n.hidden = (some (sample_filler 0), 5)) :=
  C6_stateless [⟨sample_filler 2, ⟨7, "a", none, 0⟩⟩] []
    { hidden := (some (sample_filler 0), 5), visible := [] }
    { hidden := (none, 9), visible := ["a"] }
    { hidden := (some (sample_filler 0), 5), visible := ["a"] }
    { hidden := (none, 9), visible := ["a"] } [0] []
    ⟨sample_filler 2, ⟨7, "b", none, -1⟩⟩ rfl rfl rfl

/-- The trampoline wrapped around itself any number of times yields what the wrapped
callback yields. -/
theorem nested_eq {σ ε : Type} (g : fuse_fill_dir_t σ ε) (n : Nat) (buf : Nat)
    (name : String) (stbuf : Option stat) (off : Int) (s : σ) :
    nested n g buf name stbuf off s = g buf name stbuf off s := by
  induction n with
  | zero => rfl
  | succ n ih =>
    show call_filler_function (nested n g) buf name stbuf off s = g buf name stbuf off s
    rw [call_filler_function_eq, ih]

/-- C9. Reentrancy under nesting: the trampoline run on a callback that itself forwards
through the trampoline to `g` yields the verdict and the state that `g` yields when called
directly, and so does the trampoline wrapped around itself any number of times. -/
theorem C9_nesting {σ ε : Type} (g : fuse_fill_dir_t σ ε) (buf : Nat) (name : String)
    (stbuf : Option stat) (off : Int) (s : σ) :
    call_filler_function (fun b n st o => call_filler_function g b n st o)
        buf name stbuf off s
      = g buf name stbuf off s ∧
    ∀ n : Nat, call_filler_function (nested n g) buf name stbuf off s
      = g buf name stbuf off s := by
  refine ⟨?_, fun n => ?_⟩
  · rw [call_filler_function_eq, call_filler_function_eq]
  · rw [call_filler_function_eq, nested_eq]

/-! ## The diagnostic routine -/

/-- C7. Diagnostic output: for an argument vector `argv` whose length is `argc`, an `int`,
and with fuel for every test of the loop condition, `test_argc_argv` adds to standard
output exactly the decimal numeral of `argc` followed by " arguments" and a newline, then
each of `argv[0]`, ..., `argv[argc-1]` in order followed by a newline, and nothing else;
for `["prog", "-x", "/mnt"]` that text is "3 arguments\nprog\n-x\n/mnt\n". -/
theorem C7_diagnostic_output (argc : Int) (argv : List String) (out : String) (fuel : Nat)
    (hargc : argc = argv.length) (hint : is_int argc) (hfuel : argv.length < fuel) :
    Except.map Frame.stdout (test_argc_argv fuel argc argv out)
      = .ok (out ++ decimal argv.length ++ " arguments\n" ++ lines argv) ∧
    Except.map Frame.stdout (test_argc_argv fuel argc argv out)
      = .ok (out ++ toString argv.length ++ " arguments\n" ++ lines argv) ∧
    Except.map Frame.stdout (test_argc_argv 4 3 ["prog", "-x", "/mnt"] "")
      = .ok "3 arguments\nprog\n-x\n/mnt\n" := by
  have hn : argc.toNat = argv.length := by rw [hargc]; rfl
  have hrun := test_argc_argv_run argc argv out fuel hint.2 (le_of_eq hargc) (by omega)
  have hfmt : fmt_d argc = decimal argv.length := by rw [hargc, fmt_d_natCast]
  have hstr : toString argv.length = decimal argv.length := repr_eq_decimal argv.length
  refine ⟨?_, ?_, rfl⟩
  · rw [hrun]
    simp [Except.map, hn, hfmt]
  · rw [hrun]
    simp [Except.map, hn, hfmt, hstr]

/-- Witness of C7: the vector `["prog", "-x", "/mnt"]`, written after "$ ". -/
theorem C7_diagnostic_output_witness :
    Except.map Frame.stdout (test_argc_argv 5 3 ["prog", "-x", "/mnt"] "$ ")
      = .ok ("$ " ++ decimal 3 ++ " arguments\n" ++ lines ["prog", "-x", "/mnt"]) ∧
    decimal 3 = "3" ∧ lines ["prog", "-x", "/mnt"] = "prog\n-x\n/mnt\n" :=
  ⟨(C7_diagnostic_output 3 ["prog", "-x", "/mnt"] "$ " 5 rfl (by decide) (by decide)).1,
    by simp [decimal, digit_char], by decide⟩

/-- C8 as stated fails: with the count 1 and an empty argument vector the routine reads
`argv[0]` outside the array, and no amount of fuel makes it complete. -/
theorem C8_counterexample :
    test_argc_argv 2 1 [] "" = .error (.out_of_bounds 0) ∧
    ¬ ∃ (fuel : Nat) (m : Frame), test_argc_argv fuel 1 [] "" = .ok m := by
  refine ⟨rfl, ?_⟩
  rintro ⟨fuel, m, h⟩
  cases fuel with
  | zero => simp [test_argc_argv, for_loop] at h
  | succ n => simp [test_argc_argv, for_loop, argv_at] at h

/-- C8, amended. Diagnostic completion: for every `int` count `argc` and every argument
vector `argv` with `argc` no larger than its length, `test_argc_argv` has no error case:
with fuel for every test of the loop condition it completes. -/
theorem C8_diagnostic_completion (argc : Int) (argv : List String) (out : String)
    (fuel : Nat) (hint : is_int argc) (hlen : argc ≤ argv.length)
    (hfuel : argc.toNat < fuel) :
    ∃ m : Frame, test_argc_argv fuel argc argv out = .ok m :=
  ⟨_, test_argc_argv_run argc argv out fuel hint.2 hlen hfuel⟩

/-- Witness of C8: the count 2 with a vector of three strings. -/
theorem C8_diagnostic_completion_witness :
    is_int 2 ∧ (2 : Int) ≤ (["prog", "-x", "/mnt"] : List String).length ∧
    ∃ m : Frame, test_argc_argv 3 2 ["prog", "-x", "/mnt"] "" = .ok m :=
  ⟨by decide, by decide,
    C8_diagnostic_completion 2 ["prog", "-x", "/mnt"] "" 3 (by decide) (by decide) (by decide)⟩

/-- C10 as stated fails: with the count -1 the precondition holds and the routine
completes without a loop iteration, yet the counter `i` holds 0, which exceeds `argc`. -/
theorem C10_counterexample :
    (-1 : Int) ≤ (([] : List String).length : Int) ∧
    ∃ m : Frame, test_argc_argv 1 (-1) [] "" = .ok m ∧ m.iterations = 0 ∧
      ∃ v ∈ m.counter, (-1 : Int) < v :=
  ⟨by decide, _, rfl, rfl, 0, by decide, by decide⟩

/-- C10, amended. Bounded reads and termination of the diagnostic loop: for every `int`
count `argc` and every `argv` with `argc` no larger than its length, `test_argc_argv`
with fuel for every test of the loop condition terminates after exactly `max(argc, 0)`
loop iterations; it reads the indices `0`, ..., `argc-1` of `argv` and no other, each in
bounds; the counter `i` never exceeds `max(argc, 0)`, hence never the largest `int`; and
when `argc` is zero or negative it prints only the count line and reads no element. -/
theorem C10_bounded_reads (argc : Int) (argv : List String) (out : String) (fuel : Nat)
    (hint : is_int argc) (hlen : argc ≤ argv.length) (hfuel : argc.toNat < fuel) :
    ∃ m : Frame, test_argc_argv fuel argc argv out = .ok m ∧
      (m.iterations : Int) = max argc 0 ∧
      m.reads = (List.range argc.toNat).map Int.ofNat ∧
      (∀ r ∈ m.reads, 0 ≤ r ∧ r < argc ∧ r < argv.length) ∧
      (∀ v ∈ m.counter, 0 ≤ v ∧ v ≤ max argc 0 ∧ v ≤ INT_MAX) ∧
      (argc ≤ 0 → m.stdout = out ++ fmt_d argc ++ " arguments\n" ∧ m.reads = []) := by
  refine ⟨_, test_argc_argv_run argc argv out fuel hint.2 hlen hfuel, ?_, ?_, ?_, ?_, ?_⟩
  · simp only [Int.toNat_eq_max, max_comm]
  · rw [List.range_eq_range']
  · intro r hr
    simp only [List.mem_map, List.mem_range'_1] at hr
    obtain ⟨a, ⟨_, ha⟩, rfl⟩ := hr
    have : (a : Int) < argc := by omega
    exact ⟨Int.ofNat_nonneg a, this, lt_of_lt_of_le this hlen⟩
  · intro v hv
    have hM : max argc 0 ≤ INT_MAX := max_le hint.2 (by decide)
    simp only [List.mem_cons, List.mem_map, List.mem_range'_1] at hv
    rcases hv with rfl | ⟨a, ⟨_, ha⟩, rfl⟩
    · exact ⟨le_refl 0, le_max_right argc 0, by decide⟩
    · have h1 : (a : Int) ≤ argc := by omega
      have h2 : (Int.ofNat a) ≤ max argc 0 := le_trans h1 (le_max_left argc 0)
      exact ⟨Int.ofNat_nonneg a, h2, le_trans h2 hM⟩
  · intro hneg
    have h0 : argc.toNat = 0 := Int.toNat_eq_zero.mpr hneg
    simp [h0, lines]

/-- Witness of C10: the count 2 with a vector of three strings. -/
theorem C10_bounded_reads_witness :
    is_int 2 ∧ (2 : Int) ≤ (["prog", "-x", "/mnt"] : List String).length ∧
    ∃ m : Frame, test_argc_argv 3 2 ["prog", "-x", "/mnt"] "" = .ok m ∧
      (m.iterations : Int) = max 2 0 ∧
      m.reads = (List.range (2 : Int).toNat).map Int.ofNat ∧
      (∀ r ∈ m.reads, 0 ≤ r ∧ r < 2 ∧ r < (["prog", "-x", "/mnt"] : List String).length) ∧
      (∀ v ∈ m.counter, 0 ≤ v ∧ v ≤ max 2 0 ∧ v ≤ INT_MAX) ∧
      ((2 : Int) ≤ 0 → m.stdout = "" ++ fmt_d 2 ++ " arguments\n" ∧ m.reads = []) :=
  ⟨by decide, by decide,
    C10_bounded_reads 2 ["prog", "-x", "/mnt"] "" 3 (by decide) (by decide) (by decide)⟩

end FuseRustWrapper
